import Mathlib

/-!
Verification development for the RDG (ribosome decision graph) engine.

The Python classes `Node`, `Edge` and `RDG` of `src/RDG/RDG.py` are embedded
shallowly: Python dictionaries become association lists in insertion order
(Python dicts preserve insertion order; assigning an existing key keeps its
position, a new key is appended), Python ints become `Int` (keys, which are
always positive, become `Nat`), raised exceptions become `Except Err`, and
the raw list indexing `xs[0]` becomes an `Option`-valued access whose `none`
branch models the Python `IndexError`/`KeyError`.  Loops that walk parent
links are given explicit fuel; the fuel is chosen large enough that it is
never exhausted on the acyclic graphs the claims are about, and exhaustion is
mapped to the same `none` as a Python exception or hang.
-/

/-! ## Association-list model of Python dict -/

/-- First value stored under key `k`, `none` when absent (Python `d[k]`
raising `KeyError` is modelled by propagating the `none`). -/
def dget (d : List (Nat × α)) (k : Nat) : Option α :=
  (d.find? (fun p => p.1 == k)).map (fun p => p.2)

/-- Python `d[k] = v`: overwrite in place when the key exists, else append. -/
def dset (d : List (Nat × α)) (k : Nat) (v : α) : List (Nat × α) :=
  if (d.find? (fun p => p.1 == k)).isSome then
    d.map (fun p => if p.1 == k then (k, v) else p)
  else
    d ++ [(k, v)]

/-- Python `d.pop(k)`. -/
def dpop (d : List (Nat × α)) (k : Nat) : List (Nat × α) :=
  d.filter (fun p => p.1 != k)

/-- Update the value stored under `k`, no-op when the key is absent. -/
def dmodify (d : List (Nat × α)) (k : Nat) (f : α → α) : List (Nat × α) :=
  d.map (fun p => if p.1 == k then (p.1, f p.2) else p)

/-- Python `list(d.keys())`. -/
def dkeys (d : List (Nat × α)) : List Nat :=
  d.map (fun p => p.1)

/-! ## Generic helpers -/

/-- Is `pat` a prefix of the character list? -/
def isPrefixChars : List Char → List Char → Bool
  | [], _ => true
  | _ :: _, [] => false
  | a :: as, b :: bs => a == b && isPrefixChars as bs

/-- Does the character list contain `pat` as a contiguous run? -/
def hasInfixChars (pat : List Char) : List Char → Bool
  | [] => isPrefixChars pat []
  | c :: rest => isPrefixChars pat (c :: rest) || hasInfixChars pat rest

/-- Python `pat in s` on strings. -/
def strContains (s pat : String) : Bool :=
  hasInfixChars pat.data s.data

/-- Insert into an ascending list. -/
def sortIns (x : Nat) : List Nat → List Nat
  | [] => [x]
  | y :: ys => if x ≤ y then x :: y :: ys else y :: sortIns x ys

/-- Python `sorted` on a list of keys. -/
def sortNat (l : List Nat) : List Nat :=
  l.foldr sortIns []

/-- Python `max` over a nonempty key list. -/
def listMax (l : List Nat) : Nat :=
  l.foldl Nat.max 0

/-- Python `x in range(a, b)` for ints: `a ≤ x < b`. -/
def inIntRange (x a b : Int) : Bool :=
  a ≤ x && x < b

/-! ## Entity model (`Node`, `Edge`, errors) -/

/-- `Node` of `src/RDG/RDG.py`: `node_start` is the transcript position,
adjacency is recorded as four key lists. -/
structure Node where
  key : Nat
  node_type : String
  node_start : Int
  input_edges : List Nat := []
  output_edges : List Nat := []
  input_nodes : List Nat := []
  output_nodes : List Nat := []
deriving Repr, DecidableEq

/-- `Edge` of `src/RDG/RDG.py`. -/
structure Edge where
  key : Nat
  edge_type : String
  from_node : Nat
  to_node : Nat
  coordinates : Int × Int
deriving Repr, DecidableEq

/-- Python exception kinds raised by the graph engine: `Err.exc` is a bare
`Exception` (the bounds errors), `Err.valueError` is `ValueError`. -/
inductive Err where
  | exc (msg : String)
  | valueError (msg : String)
deriving Repr, DecidableEq

instance {ε α : Type} [DecidableEq ε] [DecidableEq α] : DecidableEq (Except ε α) := fun x y =>
  match x, y with
  | .ok a, .ok b =>
      if h : a = b then isTrue (by rw [h])
      else isFalse (by intro hc; cases hc; exact h rfl)
  | .error a, .error b =>
      if h : a = b then isTrue (by rw [h])
      else isFalse (by intro hc; cases hc; exact h rfl)
  | .ok _, .error _ => isFalse (by intro hc; cases hc)
  | .error _, .ok _ => isFalse (by intro hc; cases hc)

/-- The graph aggregate of `src/RDG/RDG.py`. -/
structure RDG where
  locus : String
  locus_start : Int
  locus_stop : Int
  nodes : List (Nat × Node)
  edges : List (Nat × Edge)
deriving Repr, DecidableEq

/-! ## Construction (`RDG.__init__`, `load_example`) -/

/-- The fresh two-node graph built by `RDG.__init__` when no node mapping is
supplied (the `nodes is None` branch, lines 154-183 of `RDG.py`). -/
def RDG.new (locus_start locus_stop : Int) (name : String) : RDG :=
  { locus := name
    locus_start := locus_start
    locus_stop := locus_stop
    nodes :=
      [(1, { key := 1, node_type := "5_prime", node_start := 0,
             output_edges := [1], output_nodes := [2] }),
       (2, { key := 2, node_type := "3_prime",
             node_start := locus_stop - locus_start,
             input_edges := [1], input_nodes := [1] })]
    edges :=
      [(1, { key := 1, edge_type := "untranslated", from_node := 1,
             to_node := 2, coordinates := (1, locus_stop - 1) })] }

/-- Full `RDG.__init__`: with `nodes = None` it builds the fresh two-node
graph unconditionally; with a node mapping supplied it stores the arguments
and rejects `locus_stop <= locus_start` with a `ValueError` (lines 184-193
of `RDG.py`). -/
def RDG.init (locus_start locus_stop : Int) (name : String)
    (nodesOpt : Option (List (Nat × Node))) (edgesOpt : Option (List (Nat × Edge))) :
    Except Err RDG :=
  match nodesOpt with
  | none => .ok (RDG.new locus_start locus_stop name)
  | some ns =>
      if locus_stop ≤ locus_start then
        .error (.valueError "locus_stop must be greater than locus_start")
      else
        .ok { locus := name, locus_start := locus_start,
              locus_stop := locus_stop, nodes := ns,
              edges := edgesOpt.getD [] }

/-- `RDG.load_example`: the canonical one-translon graph (locus length 1000,
translon `(10, 100)`), overwriting the node/edge mappings of `g`. -/
def RDG.load_example (g : RDG) : RDG :=
  { g with
    nodes :=
      [(1, { key := 1, node_type := "5_prime", node_start := 0,
             output_edges := [1], output_nodes := [3] }),
       (2, { key := 2, node_type := "3_prime", node_start := 1000,
             input_edges := [2], input_nodes := [3] }),
       (3, { key := 3, node_type := "start", node_start := 10,
             input_edges := [1], output_edges := [2, 3],
             input_nodes := [1], output_nodes := [2, 4] }),
       (4, { key := 4, node_type := "stop", node_start := 100,
             input_edges := [3], output_edges := [4],
             input_nodes := [3], output_nodes := [5] }),
       (5, { key := 5, node_type := "3_prime", node_start := 1000,
             input_edges := [4], input_nodes := [4] })]
    edges :=
      [(1, { key := 1, edge_type := "untranslated", from_node := 1,
             to_node := 3, coordinates := (1, 9) }),
       (2, { key := 2, edge_type := "untranslated", from_node := 3,
             to_node := 2, coordinates := (11, 999) }),
       (3, { key := 3, edge_type := "translated", from_node := 3,
             to_node := 4, coordinates := (11, 100) }),
       (4, { key := 4, edge_type := "untranslated", from_node := 4,
             to_node := 5, coordinates := (101, 999) })] }

/-- `RDG(); RDG.load_example(g)` as used throughout the repository's tests. -/
def exampleGraph : RDG :=
  (RDG.new 0 1000 "name").load_example

/-! ## Container primitives -/

/-- `RDG.get_node_keys`. -/
def RDG.get_node_keys (g : RDG) : List Nat :=
  dkeys g.nodes

/-- `RDG.get_edge_keys`. -/
def RDG.get_edge_keys (g : RDG) : List Nat :=
  dkeys g.edges

/-- `RDG.get_new_node_key`: `max(keys) + 1`, or `1` when empty. -/
def RDG.get_new_node_key (g : RDG) : Nat :=
  if g.nodes.isEmpty then 1 else listMax (dkeys g.nodes) + 1

/-- `RDG.get_new_edge_key`: `max(keys) + 1`, or `1` when empty. -/
def RDG.get_new_edge_key (g : RDG) : Nat :=
  if g.edges.isEmpty then 1 else listMax (dkeys g.edges) + 1

/-- `node_start` of a node key, `0` when the key is absent (the absent case
is a Python `KeyError` and is never reached in the claims below). -/
def RDG.nodeStartD (g : RDG) (k : Nat) : Int :=
  ((dget g.nodes k).map (fun n => n.node_start)).getD 0

/-- `node_type` of a node key, `""` when the key is absent. -/
def RDG.nodeTypeD (g : RDG) (k : Nat) : String :=
  ((dget g.nodes k).map (fun n => n.node_type)).getD ""

/-- `RDG.get_key_from_position`: all keys of nodes of type `node_type` at
`position`; `ValueError` when the type or the position has no match. -/
def RDG.get_key_from_position (g : RDG) (position : Int) (node_type : String) :
    Except Err (List Nat) :=
  let valid := g.nodes.filter (fun p => p.2.node_type == node_type)
  if valid.isEmpty then
    .error (.valueError
      ("There are no nodes of type '" ++ node_type ++ "' in the graph"))
  else
    let hits := (valid.filter (fun p => p.2.node_start == position)).map (fun p => p.1)
    if hits.isEmpty then
      .error (.valueError
        ("No node of type '" ++ node_type ++ "' at position " ++ toString position))
    else
      .ok hits

/-- `RDG.remove_edge`: detach the edge from both endpoints' adjacency lists
(each removal is a guarded remove-first-occurrence, i.e. `List.erase`) and
delete it from the edge mapping. -/
def RDG.remove_edge (g : RDG) (edge_key : Nat) : RDG :=
  match dget g.edges edge_key with
  | none => g
  | some e =>
      let g1 := { g with nodes := dmodify g.nodes e.from_node (fun n =>
        { n with output_edges := n.output_edges.erase edge_key,
                 output_nodes := n.output_nodes.erase e.to_node }) }
      let g2 := { g1 with nodes := dmodify g1.nodes e.to_node (fun n =>
        { n with input_edges := n.input_edges.erase edge_key,
                 input_nodes := n.input_nodes.erase e.from_node }) }
      { g2 with edges := dpop g2.edges edge_key }

/-- `RDG.add_edge`: append the new edge key and endpoint to both endpoints'
adjacency lists (unconditionally) and store the edge. -/
def RDG.add_edge (g : RDG) (edge : Edge) (from_node_key to_node_key : Nat) : RDG :=
  let g1 := { g with nodes := dmodify g.nodes from_node_key (fun n =>
    { n with output_edges := n.output_edges ++ [edge.key],
             output_nodes := n.output_nodes ++ [to_node_key] }) }
  let g2 := { g1 with nodes := dmodify g1.nodes to_node_key (fun n =>
    { n with input_edges := n.input_edges ++ [edge.key],
             input_nodes := n.input_nodes ++ [from_node_key] }) }
  { g2 with edges := dset g2.edges edge.key edge }

/-- `RDG.add_node`. -/
def RDG.add_node (g : RDG) (node : Node) : RDG :=
  { g with nodes := dset g.nodes node.key node }

/-- `RDG.remove_node`: cascade-remove the incident edges in sorted key order
(output side first, re-reading the input list afterwards as the Python code
does), then delete the node. -/
def RDG.remove_node (g : RDG) (node_key : Nat) : RDG :=
  match dget g.nodes node_key with
  | none => g
  | some n =>
      let g1 := (sortNat n.output_edges).foldl RDG.remove_edge g
      match dget g1.nodes node_key with
      | none => g1
      | some n1 =>
          let g2 := (sortNat n1.input_edges).foldl RDG.remove_edge g1
          { g2 with nodes := dpop g2.nodes node_key }

/-- Does list field `f` of node `k` contain `x`?  (`False` when the node is
absent; Python would raise `KeyError` there.) -/
def RDG.nodeListMem (g : RDG) (k : Nat) (f : Node → List Nat) (x : Nat) : Bool :=
  match dget g.nodes k with
  | some n => (f n).contains x
  | none => false

/-- `RDG.update_edge`, translated guard by guard.  Note two faithful quirks
of the source: the membership guard before appending to the new from-node's
`output_nodes` tests `new_from_node` instead of `new_to_node`, and the final
write-back updates `coordinates` and `from_node` but never `to_node`. -/
def RDG.update_edge (g : RDG) (edge_key : Nat)
    (new_from_node new_to_node : Nat) (new_coordinates : Int × Int) : RDG :=
  match dget g.edges edge_key with
  | none => g
  | some e =>
      let old_from_node := e.from_node
      let old_to_node := e.to_node
      let g1 :=
        if old_from_node ≠ new_from_node then
          let a := { g with nodes := dmodify g.nodes old_from_node (fun n =>
            { n with output_edges := n.output_edges.erase edge_key }) }
          let b :=
            if a.nodeListMem new_from_node (fun n => n.output_edges) edge_key then a
            else { a with nodes := dmodify a.nodes new_from_node (fun n =>
              { n with output_edges := n.output_edges ++ [edge_key] }) }
          let c := { b with nodes := dmodify b.nodes old_from_node (fun n =>
            { n with output_nodes := n.output_nodes.erase old_to_node }) }
          let d :=
            if c.nodeListMem new_from_node (fun n => n.output_nodes) new_from_node then c
            else { c with nodes := dmodify c.nodes new_from_node (fun n =>
              { n with output_nodes := n.output_nodes ++ [new_to_node] }) }
          let e1 := { d with nodes := dmodify d.nodes new_to_node (fun n =>
            { n with input_nodes := n.input_nodes.erase old_from_node }) }
          if e1.nodeListMem new_to_node (fun n => n.input_nodes) new_from_node then e1
          else { e1 with nodes := dmodify e1.nodes new_to_node (fun n =>
            { n with input_nodes := n.input_nodes ++ [new_from_node] }) }
        else g
      let g2 :=
        if old_to_node ≠ new_to_node then
          let a := { g1 with nodes := dmodify g1.nodes old_to_node (fun n =>
            { n with input_edges := n.input_edges.erase edge_key }) }
          let b :=
            if a.nodeListMem new_to_node (fun n => n.input_edges) edge_key then a
            else { a with nodes := dmodify a.nodes new_to_node (fun n =>
              { n with input_edges := n.input_edges ++ [edge_key] }) }
          { b with nodes := dmodify b.nodes old_to_node (fun n =>
            { n with input_nodes := n.input_nodes.erase old_from_node }) }
        else g1
      { g2 with edges := dmodify g2.edges edge_key (fun ed =>
          { ed with coordinates := new_coordinates, from_node := new_from_node }) }

/-! ## Path reconstruction -/

/-- One loop body of `root_to_node_of_acyclic_node_path`: read the first
input node, append it, stop when it has no inputs.  `none` models the Python
`IndexError` (empty `input_nodes`), `KeyError`, or a hang (fuel). -/
def nodePathAux (g : RDG) : Nat → Nat → List Nat → Option (List Nat)
  | 0, _, _ => none
  | fuel + 1, node, path =>
      match dget g.nodes node with
      | none => none
      | some n =>
          match n.input_nodes with
          | [] => none
          | in_node :: _ =>
              let path1 := path ++ [in_node]
              match dget g.nodes in_node with
              | none => none
              | some m =>
                  if m.input_nodes.isEmpty then some path1
                  else nodePathAux g fuel in_node path1

/-- `RDG.root_to_node_of_acyclic_node_path`: walk strictly via
`input_nodes[0]`, return the path root-first.  Called on a node with no
input nodes it hits `input_nodes[0]` on an empty list, a Python
`IndexError`, modelled as `none`. -/
def RDG.root_to_node_of_acyclic_node_path (g : RDG) (node : Nat) : Option (List Nat) :=
  (nodePathAux g (g.nodes.length + 1) node [node]).map List.reverse

/-- One loop body of `root_to_node_of_acyclic_edge_path`. -/
def edgePathAux (g : RDG) : Nat → Nat → List Nat → Option (List Nat)
  | 0, _, _ => none
  | fuel + 1, node, path =>
      match dget g.nodes node with
      | none => none
      | some n =>
          match n.input_nodes with
          | [] => none
          | in_node :: _ =>
              match dget g.nodes in_node with
              | none => none
              | some m =>
                  if m.input_nodes.isEmpty then some path
                  else
                    match m.input_edges with
                    | [] => none
                    | e :: _ => edgePathAux g fuel in_node (path ++ [e])

/-- `RDG.root_to_node_of_acyclic_edge_path`: the empty path for a node with
no input nodes, else walk via `input_nodes[0]` collecting `input_edges[0]`,
root-first. -/
def RDG.root_to_node_of_acyclic_edge_path (g : RDG) (node : Nat) : Option (List Nat) :=
  match dget g.nodes node with
  | none => none
  | some n =>
      if n.input_nodes.isEmpty then some []
      else
        match n.input_edges with
        | [] => none
        | e :: _ =>
            (edgePathAux g (g.nodes.length + 1) node [e]).map List.reverse

/-- `RDG.check_translation_upstream`: `true` iff the number of translated
edges on the root-to-node edge path strictly exceeds `upstream_limit`. -/
def RDG.check_translation_upstream (g : RDG) (from_node : Nat)
    (upstream_limit : Nat) : Option Bool :=
  (g.root_to_node_of_acyclic_edge_path from_node).map (fun p =>
    let cnt := p.countP (fun ek =>
      match dget g.edges ek with
      | some e => e.edge_type == "translated"
      | none => false)
    decide (upstream_limit < cnt))

/-- The message of the bounds `Exception` raised by the three splice
operations when the requested stop coordinate exceeds `locus_stop` (the
Python f-string, with its surrounding whitespace normalised away). -/
def boundsMsg (pos locus_stop : Int) : String :=
  "Next in frame stop codon (" ++ toString pos ++
    (") is outside of sequence (length " ++ (toString locus_stop ++ ")"))

/-! ## Splice engine -/

/-- `RDG.insert_translon`: splice a start/stop pair into one clashing edge,
creating the 5' untranslated edge, the coding edge, a fresh terminal node
with its 3' edge, and finally truncating the original edge via
`update_edge` so it runs from the start node. -/
def RDG.insert_translon (g : RDG) (edge : Edge) (start_node stop_node : Node) : RDG :=
  let five_prime_edge_coords := (edge.coordinates.1, start_node.node_start - 1)
  let coding_edge_coords := (start_node.node_start, stop_node.node_start)
  let three_prime_edge_coords := (stop_node.node_start + 1, g.locus_stop)
  let ek1 := g.get_new_edge_key
  let five_prime : Edge :=
    { key := ek1, edge_type := "untranslated", from_node := edge.from_node,
      to_node := start_node.key, coordinates := five_prime_edge_coords }
  let g1 := g.add_edge five_prime edge.from_node start_node.key
  let ek2 := g1.get_new_edge_key
  let coding : Edge :=
    { key := ek2, edge_type := "translated", from_node := start_node.key,
      to_node := stop_node.key, coordinates := coding_edge_coords }
  let g2 := g1.add_node stop_node
  let g3 := g2.add_edge coding start_node.key stop_node.key
  let terminal_node_key := g3.get_new_node_key
  let terminal_node : Node :=
    { key := terminal_node_key, node_type := "3_prime",
      node_start := g3.locus_stop }
  let ek3 := g3.get_new_edge_key
  let three_prime : Edge :=
    { key := ek3, edge_type := "untranslated", from_node := stop_node.key,
      to_node := terminal_node.key, coordinates := three_prime_edge_coords }
  let g4 := g3.add_node terminal_node
  let g5 := g4.add_edge three_prime stop_node.key terminal_node.key
  g5.update_edge edge.key start_node.key edge.to_node
    (start_node.node_start, g5.nodeStartD edge.to_node)

/-- The per-clash body of `add_open_reading_frame`'s second loop: accept the
clash when `reinitiation` holds or the upstream translated count is within
the limit, then create fresh start/stop nodes and splice. -/
def RDG.orfClashStep (start_codon_position stop_codon_position : Int)
    (reinitiation : Bool) (upstream_limit : Nat)
    (g : RDG) (clash : Nat × Nat) : RDG :=
  if reinitiation ||
      (g.check_translation_upstream clash.2 upstream_limit == some false) then
    let node_key := g.get_new_node_key
    let start_node : Node :=
      { key := node_key, node_type := "start", node_start := start_codon_position }
    let ga := g.add_node start_node
    let stop_node_key := ga.get_new_node_key
    let stop_node : Node :=
      { key := stop_node_key, node_type := "stop", node_start := stop_codon_position }
    let gb := ga.add_node stop_node
    match dget gb.edges clash.1 with
    | some e => gb.insert_translon e start_node stop_node
    | none => gb
  else g

/-- `RDG.add_open_reading_frame`: bounds-check the stop codon, snapshot the
clashing edges (non-translated edges whose `[start, end)` span contains the
start codon) from the pre-call edge set, then splice into each accepted
clash. -/
def RDG.add_open_reading_frame (g : RDG)
    (start_codon_position stop_codon_position : Int)
    (reinitiation : Bool) (upstream_limit : Nat) : Except Err RDG :=
  if stop_codon_position > g.locus_stop then
    .error (.exc (boundsMsg stop_codon_position g.locus_stop))
  else
    let existing_edges := g.get_edge_keys
    let clashing_edges := existing_edges.filterMap (fun ek =>
      match dget g.edges ek with
      | some e =>
          if inIntRange start_codon_position e.coordinates.1 e.coordinates.2
              && e.edge_type != "translated" then
            some (ek, e.from_node)
          else none
      | none => none)
    .ok (clashing_edges.foldl
      (RDG.orfClashStep start_codon_position stop_codon_position
        reinitiation upstream_limit) g)

/-- The per-key body of `add_stop_codon_readthrough`'s loop: add a fresh
stop node at the next stop position, a translated edge from the readthrough
node to it, and a fresh terminal node with its untranslated 3' edge. -/
def RDG.readthroughStep (next_stop_codon_position : Int)
    (g : RDG) (readthrough_key : Nat) : RDG :=
  let new_stop_node_key := g.get_new_node_key
  let new_stop_node : Node :=
    { key := new_stop_node_key, node_type := "stop",
      node_start := next_stop_codon_position }
  let g1 := g.add_node new_stop_node
  let coding_edge_key := g1.get_new_edge_key
  let coding : Edge :=
    { key := coding_edge_key, edge_type := "translated",
      from_node := readthrough_key, to_node := new_stop_node.key,
      coordinates :=
        (g1.nodeStartD readthrough_key, next_stop_codon_position) }
  let g2 := g1.add_edge coding readthrough_key new_stop_node.key
  let three_prime_terminal_key :=
    ((dget g2.nodes readthrough_key).map
      (fun n => n.output_nodes.headD 0)).getD 0
  let terminal_node_key := g2.get_new_node_key
  let terminal_node : Node :=
    { key := terminal_node_key, node_type := "3_prime",
      node_start := g2.nodeStartD three_prime_terminal_key }
  let g3 := g2.add_node terminal_node
  let new_3_prime_edge := g3.get_new_edge_key
  let three_prime : Edge :=
    { key := new_3_prime_edge, edge_type := "untranslated",
      from_node := new_stop_node.key, to_node := terminal_node_key,
      coordinates :=
        (new_stop_node.node_start, g3.nodeStartD three_prime_terminal_key) }
  g3.add_edge three_prime new_stop_node.key terminal_node_key

/-- `RDG.add_stop_codon_readthrough`: bounds-check, find every stop node at
the readthrough position, and run `readthroughStep` on each. -/
def RDG.add_stop_codon_readthrough (g : RDG)
    (readthrough_codon_position next_stop_codon_position : Int) : Except Err RDG :=
  if next_stop_codon_position > g.locus_stop then
    .error (.exc (boundsMsg next_stop_codon_position g.locus_stop))
  else
    match g.get_key_from_position readthrough_codon_position "stop" with
    | .error e => .error e
    | .ok keys =>
        .ok (keys.foldl (RDG.readthroughStep next_stop_codon_position) g)

/-- The per-clash body of `add_frameshift`'s second loop, translated
statement by statement from lines 885-991 of `RDG.py`. -/
def RDG.fsClashStep (fs_position next_stop_codon_position shift : Int)
    (g : RDG) (clash : Nat × Nat) : RDG :=
  let edge := clash.1
  let upstream_node := clash.2
  let shift_node_key := g.get_new_node_key
  let shift_node : Node :=
    { key := shift_node_key, node_type := "frameshift", node_start := fs_position }
  let g1 := g.add_node shift_node
  let old_stop_node_key := ((dget g1.edges edge).map (fun e => e.to_node)).getD 0
  let old_stop_edge_key := g1.get_new_edge_key
  let old_stop_edge : Edge :=
    { key := old_stop_edge_key, edge_type := "translated",
      from_node := shift_node_key, to_node := old_stop_node_key,
      coordinates :=
        (shift_node.node_start + shift, g1.nodeStartD old_stop_node_key) }
  let g2 := g1.add_edge old_stop_edge shift_node_key old_stop_node_key
  let g3 := { g2 with nodes := dmodify g2.nodes upstream_node (fun n =>
    { n with output_nodes := n.output_nodes.erase old_stop_node_key ++ [shift_node.key] }) }
  let g4 := { g3 with edges := dmodify g3.edges edge (fun e =>
    { e with to_node := shift_node_key }) }
  let g5 := { g4 with nodes := dmodify g4.nodes old_stop_node_key (fun n =>
    { n with input_edges := n.input_edges.erase edge ++ [old_stop_edge_key] }) }
  let g6 := { g5 with nodes := dmodify g5.nodes old_stop_node_key (fun n =>
    { n with input_nodes := n.input_nodes.erase upstream_node }) }
  let new_stop_node_key := g6.get_new_node_key
  let new_stop_node : Node :=
    { key := new_stop_node_key, node_type := "stop",
      node_start := next_stop_codon_position }
  let g7 := g6.add_node new_stop_node
  let new_stop_edge_key := g7.get_new_edge_key
  let new_stop_edge : Edge :=
    { key := new_stop_edge_key, edge_type := "translated",
      from_node := shift_node_key, to_node := new_stop_node_key,
      coordinates := (shift_node.node_start, g7.nodeStartD new_stop_node_key) }
  let g8 := g7.add_edge new_stop_edge shift_node_key new_stop_node_key
  let new_terminal_key := g8.get_new_node_key
  let new_terminal_node : Node :=
    { key := new_terminal_key, node_type := "3_prime", node_start := g8.locus_stop }
  let g9 := g8.add_node new_terminal_node
  let new_three_prime_edge_key := g9.get_new_edge_key
  let new_three_prime_edge : Edge :=
    { key := new_three_prime_edge_key, edge_type := "untranslated",
      from_node := new_stop_node_key, to_node := new_terminal_key,
      coordinates := (new_stop_node.node_start, new_terminal_node.node_start) }
  g9.add_edge new_three_prime_edge new_stop_node_key new_terminal_key

/-- `RDG.add_frameshift`: bounds-check, snapshot the clashing translated
edges whose `[start, end)` span contains the frameshift position, then run
the frameshift splice on each. -/
def RDG.add_frameshift (g : RDG)
    (fs_position next_stop_codon_position shift : Int) : Except Err RDG :=
  if next_stop_codon_position > g.locus_stop then
    .error (.exc (boundsMsg next_stop_codon_position g.locus_stop))
  else
    let existing_edges := g.get_edge_keys
    let clashing_edges := existing_edges.filterMap (fun ek =>
      match dget g.edges ek with
      | some e =>
          if inIntRange fs_position e.coordinates.1 e.coordinates.2
              && e.edge_type == "translated" then
            some (ek, e.from_node)
          else none
      | none => none)
    .ok (clashing_edges.foldl
      (RDG.fsClashStep fs_position next_stop_codon_position shift) g)

/-! ## Query / traversal layer -/

/-- `RDG.get_branch_points`: nodes with more than one output edge. -/
def RDG.get_branch_points (g : RDG) : List Nat :=
  (g.nodes.filter (fun p => p.2.output_edges.length > 1)).map (fun p => p.1)

/-- `RDG.get_endpoints`: 3'-kind nodes with no output edges. -/
def RDG.get_endpoints (g : RDG) : List Nat :=
  (g.nodes.filter (fun p =>
    p.2.output_edges.length == 0 && p.2.node_type == "3_prime")).map (fun p => p.1)

/-- `RDG.get_startpoints`: 5'-kind nodes with no input edges. -/
def RDG.get_startpoints (g : RDG) : List Nat :=
  (g.nodes.filter (fun p =>
    p.2.input_edges.length == 0 && p.2.node_type == "5_prime")).map (fun p => p.1)

/-- `RDG.get_start_nodes`: start-kind nodes with exactly two output edges. -/
def RDG.get_start_nodes (g : RDG) : List Nat :=
  (g.nodes.filter (fun p =>
    p.2.output_edges.length == 2 && p.2.node_type == "start")).map (fun p => p.1)

/-- `RDG.get_stop_nodes`: nodes whose type contains the substring "stop". -/
def RDG.get_stop_nodes (g : RDG) : List Nat :=
  (g.nodes.filter (fun p => strContains p.2.node_type "stop")).map (fun p => p.1)

/-- `RDG.get_frameshifts`: nodes whose type contains "frameshift". -/
def RDG.get_frameshifts (g : RDG) : List Nat :=
  (g.nodes.filter (fun p => strContains p.2.node_type "frameshift")).map (fun p => p.1)

/-- `RDG.get_translons`.  Python returns a list of 2-tuples (plain and
readthrough translons, deduplicated only on the readthrough second hop) and
3-tuples (frameshift translons); the mixed arities are modelled as lists of
coordinates of length 2 or 3. -/
def RDG.get_translons (g : RDG) : List (List Int) :=
  (g.get_start_nodes).foldl (fun translons start =>
    let startPos := g.nodeStartD start
    let downstream := ((dget g.nodes start).map (fun n => n.output_nodes)).getD []
    downstream.foldl (fun translons candidate_stop =>
      if g.nodeTypeD candidate_stop == "stop" then
        let translons := translons ++ [[startPos, g.nodeStartD candidate_stop]]
        let readthrough_downstream :=
          ((dget g.nodes candidate_stop).map (fun n => n.output_nodes)).getD []
        readthrough_downstream.foldl (fun translons new_candidate_stop =>
          if g.nodeTypeD new_candidate_stop == "stop" then
            let t := [startPos, g.nodeStartD new_candidate_stop]
            if translons.contains t then translons else translons ++ [t]
          else translons) translons
      else if g.nodeTypeD candidate_stop == "frameshift" then
        let fs_downstream :=
          ((dget g.nodes candidate_stop).map (fun n => n.output_nodes)).getD []
        fs_downstream.foldl (fun translons new_candidate_stop =>
          if g.nodeTypeD new_candidate_stop == "stop" then
            let t := [startPos, g.nodeStartD candidate_stop,
                      g.nodeStartD new_candidate_stop]
            if translons.contains t then translons else translons ++ [t]
          else translons) translons
      else translons) translons) []

/-- `RDG.get_unique_paths`: the root-to-node path of every endpoint,
deduplicated by exact list equality; `none` when some path reconstruction
raises. -/
def RDG.get_unique_paths (g : RDG) : Option (List (List Nat)) :=
  (g.get_endpoints).foldlM (fun paths node =>
    (g.root_to_node_of_acyclic_node_path node).map (fun p =>
      if paths.contains p then paths else paths ++ [p])) []

/-- The recursion of `RDG.newick` over a node, with fuel.  Base case: an
endpoint yields "key:branchLength" with the branch length taken against the
second-to-last entry of its root path.  Recursive case: children joined by
commas inside parentheses, the node's own key appended, its own branch
length appended unless it is the root, and ";" appended when it is the
root.  `none` models any raised exception (or a hang, via fuel). -/
def newickAux (g : RDG) : Nat → Nat → Nat → Option String
  | 0, _, _ => none
  | fuel + 1, node, root =>
      if (g.get_endpoints).contains node then
        match g.root_to_node_of_acyclic_node_path node with
        | none => none
        | some path =>
            match path.reverse with
            | _ :: ancestor :: _ =>
                let branch_length := g.nodeStartD node - g.nodeStartD ancestor
                some (toString node ++ ":" ++ toString branch_length)
            | _ => none
      else
        let children := ((dget g.nodes node).map (fun n => n.output_nodes)).getD []
        match children.mapM (fun child => newickAux g fuel child root) with
        | none => none
        | some child_newick_strings =>
            let s := "(" ++ String.intercalate "," child_newick_strings ++ ")"
              ++ toString node
            let withBranch :=
              if root ≠ node then
                match g.root_to_node_of_acyclic_node_path node with
                | none => none
                | some path =>
                    match path.reverse with
                    | _ :: ancestor :: _ =>
                        let branch_length :=
                          g.nodeStartD node - g.nodeStartD ancestor
                        some (s ++ ":" ++ toString branch_length)
                    | _ => none
              else some s
            match withBranch with
            | none => none
            | some s1 => if node == root then some (s1 ++ ";") else some s1

/-- `RDG.newick` called with no arguments: fail when the graph has more than
one startpoint (ValueError) or none at all (IndexError), else serialize
from the unique startpoint as root. -/
def RDG.newick (g : RDG) : Except Err String :=
  let startpoints := g.get_startpoints
  if startpoints.length > 1 then
    .error (.valueError "Graph has more than one startpoint")
  else
    match startpoints with
    | [] => .error (.exc "IndexError: list index out of range")
    | root :: _ =>
        match newickAux g (g.nodes.length + 1) root root with
        | some s => .ok s
        | none => .error (.exc "newick serialization raised")

/-! ## Invariants under test -/

/-- Adjacency symmetry: every edge is listed in its from-node's
`output_edges`, its to-node's `input_edges`, and the two endpoint key lists
mirror the edge's endpoints. -/
def adjacencySymmetric (g : RDG) : Bool :=
  g.edges.all (fun p =>
    (match dget g.nodes p.2.from_node with
     | some n => n.output_edges.contains p.1 && n.output_nodes.contains p.2.to_node
     | none => false) &&
    (match dget g.nodes p.2.to_node with
     | some n => n.input_edges.contains p.1 && n.input_nodes.contains p.2.from_node
     | none => false))

/-- No node's `input_edges` or `output_edges` contains a duplicate entry. -/
def edgeListsNodup (g : RDG) : Bool :=
  g.nodes.all (fun p =>
    decide p.2.input_edges.Nodup && decide p.2.output_edges.Nodup)

/-- The first recorded input link of a node: `input_nodes[0]`. -/
def firstInput (g : RDG) (k : Nat) : Option Nat :=
  (dget g.nodes k).bind (fun n => n.input_nodes.head?)

/-- The acceptance test of the specification's `add_open_reading_frame`
text: accept unconditionally under reinitiation, otherwise accept exactly
when the number of translated edges on the root-to-upstream-node edge path
does not exceed `upstream_limit`. -/
def orfSpecAccept (h : RDG) (up : Nat) (reinitiation : Bool)
    (upstream_limit : Nat) : Bool :=
  reinitiation ||
    (match h.root_to_node_of_acyclic_edge_path up with
     | some pth =>
         decide ((pth.countP (fun ek =>
           match dget h.edges ek with
           | some e => e.edge_type == "translated"
           | none => false)) ≤ upstream_limit)
     | none => false)

/-- Per-clash step of the specification's `add_open_reading_frame` text:
when the clash is accepted, create fresh start/stop nodes at the given
positions and splice them into the clashing edge with `insert_translon`. -/
def orfSpecStep (start_codon_position stop_codon_position : Int)
    (reinitiation : Bool) (upstream_limit : Nat)
    (g : RDG) (clash : Nat × Nat) : RDG :=
  if orfSpecAccept g clash.2 reinitiation upstream_limit then
    let node_key := g.get_new_node_key
    let start_node : Node :=
      { key := node_key, node_type := "start", node_start := start_codon_position }
    let ga := g.add_node start_node
    let stop_node_key := ga.get_new_node_key
    let stop_node : Node :=
      { key := stop_node_key, node_type := "stop", node_start := stop_codon_position }
    let gb := ga.add_node stop_node
    match dget gb.edges clash.1 with
    | some e => gb.insert_translon e start_node stop_node
    | none => gb
  else g

/-- `add_open_reading_frame` as the specification words it (§4.2): after the
bounds check, the clashing edges are exactly the non-translated edges of the
pre-call edge set whose `[start, end)` span contains the start codon — a
snapshot captured before any mutation — and each clash is then processed
independently by `orfSpecStep`. -/
def addOpenReadingFrameSpec (g : RDG)
    (start_codon_position stop_codon_position : Int)
    (reinitiation : Bool) (upstream_limit : Nat) : Except Err RDG :=
  if stop_codon_position > g.locus_stop then
    .error (.exc (boundsMsg stop_codon_position g.locus_stop))
  else
    let clashing := (g.edges.filter (fun p =>
      p.2.edge_type != "translated" &&
        inIntRange start_codon_position p.2.coordinates.1 p.2.coordinates.2)).map
      (fun p => (p.1, p.2.from_node))
    .ok (clashing.foldl
      (orfSpecStep start_codon_position stop_codon_position
        reinitiation upstream_limit) g)

/-- A malformed load with two 5-prime startpoints, used to exercise the
newick precondition failure. -/
def twoRootGraph : RDG :=
  { locus := "x", locus_start := 0, locus_stop := 10,
    nodes :=
      [(1, { key := 1, node_type := "5_prime", node_start := 0 }),
       (2, { key := 2, node_type := "5_prime", node_start := 0 })],
    edges := [] }

/-! ## Supporting lemmas -/

theorem foldl_max_init_le (l : List Nat) : ∀ a, a ≤ l.foldl Nat.max a := by
  induction l with
  | nil => intro a; exact le_refl a
  | cons x xs ih =>
      intro a
      exact le_trans (Nat.le_max_left a x) (ih (Nat.max a x))

theorem mem_le_foldl_max (l : List Nat) : ∀ a k, k ∈ l → k ≤ l.foldl Nat.max a := by
  induction l with
  | nil => intro a k h; cases h
  | cons x xs ih =>
      intro a k h
      rcases List.mem_cons.mp h with h1 | h1
      · subst h1
        exact le_trans (Nat.le_max_right a k) (foldl_max_init_le xs _)
      · exact ih _ k h1

theorem mem_le_listMax (l : List Nat) (k : Nat) (h : k ∈ l) : k ≤ listMax l :=
  mem_le_foldl_max l 0 k h

/-! ## Claims -/

set_option maxRecDepth 100000

set_option maxHeartbeats 2000000

/-- C1.  The spec's adjacency-symmetry invariant is broken by the code of
`add_frameshift`: starting from the canonical example graph (where the
invariant and duplicate-freedom hold), `add_frameshift(30, 40, 1)` redirects
edge 3 to the new frameshift node 6 but never records edge 3 (or its
from-node) in node 6's `input_edges`/`input_nodes`, which stay empty, so
`e.key ∈ nodes[e.to_node].input_edges` fails for edge 3. -/
theorem add_frameshift_breaks_adjacency_symmetry :
    adjacencySymmetric exampleGraph = true ∧
    edgeListsNodup exampleGraph = true ∧
    (exampleGraph.add_frameshift 30 40 1).map (fun g =>
        (adjacencySymmetric g,
         (dget g.edges 3).map (fun e => e.to_node),
         (dget g.nodes 6).map (fun n => (n.input_edges, n.input_nodes))))
      = .ok (false, some 6, some ([], [])) := by
  refine ⟨by decide, by decide, by decide⟩

/-- C6.  On the canonical one-translon example, `add_frameshift(30, 40, 1)`
raises the node count to 8, `get_frameshifts` returns exactly the new
frameshift node's key 6, and `get_translons` consists of the 3-tuple
entries `(10, 30, 100)` and `(10, 30, 40)`. -/
theorem frameshift_on_example :
    (exampleGraph.add_frameshift 30 40 1).map (fun g =>
        (g.get_node_keys.length, g.get_frameshifts, g.get_translons))
      = .ok (8, [6], [[10, 30, 100], [10, 30, 40]]) := by
  decide

/-- C4, counterexample.  After `add_stop_codon_readthrough(100, 150)` on the
canonical example the readthrough node 4 still has kind "stop": the current
code never relabels it to the readthrough-stop kind. -/
theorem readthrough_does_not_relabel :
    exampleGraph.nodeTypeD 4 = "stop" ∧
    exampleGraph.nodeStartD 4 = 100 ∧
    ("stop" : String) ≠ "readthrough_stop" ∧
    (exampleGraph.add_stop_codon_readthrough 100 150).map
        (fun g => g.nodeTypeD 4) = .ok "stop" := by
  refine ⟨by decide, by decide, by decide, by decide⟩

/-- C5, counterexample.  Key 2 is a node key (and 1 an edge key) of the
fresh two-node graph; after `remove_node(2)` deletes the maximal node key
and cascades to the only edge, `get_new_node_key` returns the previously
used key 2 again and `get_new_edge_key` returns the previously used key 1
again, so deleted keys are reused when the deletion removed the maximum. -/
theorem new_key_reused_after_max_deletion :
    2 ∈ (RDG.new 0 1000 "name").get_node_keys ∧
    ((RDG.new 0 1000 "name").remove_node 2).get_new_node_key = 2 ∧
    1 ∈ (RDG.new 0 1000 "name").get_edge_keys ∧
    ((RDG.new 0 1000 "name").remove_node 2).get_new_edge_key = 1 := by
  refine ⟨by decide, by decide, by decide, by decide⟩

/-- C5, amended.  `get_new_node_key`/`get_new_edge_key` return
`max(existing keys) + 1` (or 1 when the collection is empty), hence a value
strictly greater than every key currently present — a key can therefore
never collide with a live key, but a deleted key becomes available again as
soon as no key at least as large remains in the graph. -/
theorem fresh_keys_exceed_existing : ∀ g : RDG,
    (g.nodes = [] → g.get_new_node_key = 1) ∧
    (g.nodes ≠ [] → g.get_new_node_key = listMax (dkeys g.nodes) + 1) ∧
    (∀ k, k ∈ g.get_node_keys → k < g.get_new_node_key) ∧
    (g.edges = [] → g.get_new_edge_key = 1) ∧
    (g.edges ≠ [] → g.get_new_edge_key = listMax (dkeys g.edges) + 1) ∧
    (∀ k, k ∈ g.get_edge_keys → k < g.get_new_edge_key) := by
  intro g
  refine ⟨?_, ?_, ?_, ?_, ?_, ?_⟩
  · intro h
    simp [RDG.get_new_node_key, h]
  · intro h
    simp [RDG.get_new_node_key, List.isEmpty_iff, h]
  · intro k hk
    have h1 : g.nodes ≠ [] := by
      intro h
      rw [RDG.get_node_keys, h] at hk
      cases hk
    rw [RDG.get_new_node_key, if_neg (by simpa [List.isEmpty_iff] using h1)]
    exact Nat.lt_succ_of_le (mem_le_listMax _ k hk)
  · intro h
    simp [RDG.get_new_edge_key, h]
  · intro h
    simp [RDG.get_new_edge_key, List.isEmpty_iff, h]
  · intro k hk
    have h1 : g.edges ≠ [] := by
      intro h
      rw [RDG.get_edge_keys, h] at hk
      cases hk
    rw [RDG.get_new_edge_key, if_neg (by simpa [List.isEmpty_iff] using h1)]
    exact Nat.lt_succ_of_le (mem_le_listMax _ k hk)

/-- Witness for `fresh_keys_exceed_existing` on the canonical example. -/
theorem fresh_keys_exceed_existing_witness :
    exampleGraph.get_new_node_key = listMax (dkeys exampleGraph.nodes) + 1 ∧
    3 < exampleGraph.get_new_node_key := by
  exact ⟨(fresh_keys_exceed_existing exampleGraph).2.1 (by decide),
         (fresh_keys_exceed_existing exampleGraph).2.2.1 3 (by decide)⟩

/-- C9.  The fresh-construction branch of `RDG.__init__` (no node mapping
supplied) performs no bounds validation and succeeds for every choice of
`locus_start`/`locus_stop`, while the load branch (node mapping supplied)
rejects `locus_stop ≤ locus_start` with the documented `ValueError`. -/
theorem init_fresh_unvalidated_load_validated :
    (∀ (s t : Int) (n : String), RDG.init s t n none none = .ok (RDG.new s t n)) ∧
    (∀ (s t : Int) (n : String) (ns : List (Nat × Node)) (es : Option (List (Nat × Edge))),
      t ≤ s → RDG.init s t n (some ns) es =
        .error (.valueError "locus_stop must be greater than locus_start")) := by
  constructor
  · intro s t n
    rfl
  · intro s t n ns es h
    simp [RDG.init, if_pos h]

/-- Witness for `init_fresh_unvalidated_load_validated`: an inverted locus
interval is accepted on the fresh path and rejected on the load path. -/
theorem init_fresh_unvalidated_load_validated_witness :
    RDG.init 5 3 "x" none none = .ok (RDG.new 5 3 "x") ∧
    RDG.init 5 3 "x" (some []) none =
      .error (.valueError "locus_stop must be greater than locus_start") :=
  ⟨init_fresh_unvalidated_load_validated.1 5 3 "x",
   init_fresh_unvalidated_load_validated.2 5 3 "x" [] none (by decide)⟩

/-- C10.  On any node with no recorded input nodes (the root),
`root_to_node_of_acyclic_node_path` hits `input_nodes[0]` on an empty list —
a Python `IndexError`, modelled as `none` — instead of returning the
one-element path, while `root_to_node_of_acyclic_edge_path` returns the
empty list, so the two path functions disagree on whether the root is a
valid argument. -/
theorem root_path_functions_disagree_on_root :
    ∀ (g : RDG) (node : Nat) (n : Node),
      dget g.nodes node = some n → n.input_nodes = [] →
      g.root_to_node_of_acyclic_node_path node = none ∧
      g.root_to_node_of_acyclic_edge_path node = some [] := by
  intro g node n h1 h2
  constructor
  · simp [RDG.root_to_node_of_acyclic_node_path, nodePathAux, h1, h2]
  · simp [RDG.root_to_node_of_acyclic_edge_path, h1, h2]

/-- Witness for `root_path_functions_disagree_on_root` at the root of the
canonical example graph. -/
theorem root_path_functions_disagree_on_root_witness :
    exampleGraph.root_to_node_of_acyclic_node_path 1 = none ∧
    exampleGraph.root_to_node_of_acyclic_edge_path 1 = some [] :=
  root_path_functions_disagree_on_root exampleGraph 1
    { key := 1, node_type := "5_prime", node_start := 0,
      output_edges := [1], output_nodes := [3] } (by decide) (by decide)

/-- `get_key_from_position` only ever raises `ValueError`, never the bare
bounds `Exception`. -/
theorem get_key_from_position_no_exc (g : RDG) (pos : Int) (t : String) (msg : String) :
    g.get_key_from_position pos t ≠ .error (.exc msg) := by
  unfold RDG.get_key_from_position
  dsimp only
  split
  · intro hc
    cases hc
  · split
    · intro hc
      cases hc
    · intro hc
      cases hc

/-- C3.  Each splice operation raises the bounds `Exception` carrying the
offending stop coordinate exactly when that coordinate exceeds
`locus_stop`; the check precedes every mutation (in this pure model the
error is produced before the graph value is consumed), no other raise of
the bare `Exception` kind exists in the three operations, and the message
contains the offending coordinate. -/
theorem bounds_error_iff :
    ∀ (g : RDG) (p q s : Int) (r : Bool) (l : Nat),
      (q > g.locus_stop →
        g.add_open_reading_frame p q r l = .error (.exc (boundsMsg q g.locus_stop)) ∧
        g.add_stop_codon_readthrough p q = .error (.exc (boundsMsg q g.locus_stop)) ∧
        g.add_frameshift p q s = .error (.exc (boundsMsg q g.locus_stop))) ∧
      (∀ msg, g.add_open_reading_frame p q r l = .error (.exc msg) → q > g.locus_stop) ∧
      (∀ msg, g.add_stop_codon_readthrough p q = .error (.exc msg) → q > g.locus_stop) ∧
      (∀ msg, g.add_frameshift p q s = .error (.exc msg) → q > g.locus_stop) ∧
      (∃ a b : String, boundsMsg q g.locus_stop = a ++ toString q ++ b) := by
  intro g p q s r l
  refine ⟨?_, ?_, ?_, ?_, ?_⟩
  · intro h
    refine ⟨?_, ?_, ?_⟩
    · rw [RDG.add_open_reading_frame, if_pos h]
    · rw [RDG.add_stop_codon_readthrough, if_pos h]
    · rw [RDG.add_frameshift, if_pos h]
  · intro msg hmsg
    by_contra hq
    rw [RDG.add_open_reading_frame, if_neg hq] at hmsg
    cases hmsg
  · intro msg hmsg
    by_contra hq
    rw [RDG.add_stop_codon_readthrough, if_neg hq] at hmsg
    rcases hk : g.get_key_from_position p "stop" with e | keys
    · rw [hk] at hmsg
      cases hmsg
      exact get_key_from_position_no_exc g p "stop" msg hk
    · rw [hk] at hmsg
      cases hmsg
  · intro msg hmsg
    by_contra hq
    rw [RDG.add_frameshift, if_neg hq] at hmsg
    cases hmsg
  · exact ⟨"Next in frame stop codon (",
      ") is outside of sequence (length " ++ (toString g.locus_stop ++ ")"), rfl⟩

/-- Witness for `bounds_error_iff`: a stop coordinate of 2500 on the
length-1000 example graph is rejected by all three operations with the
bounds message. -/
theorem bounds_error_iff_witness :
    exampleGraph.add_open_reading_frame 15 2500 false 0 =
      .error (.exc (boundsMsg 2500 exampleGraph.locus_stop)) ∧
    exampleGraph.add_stop_codon_readthrough 15 2500 =
      .error (.exc (boundsMsg 2500 exampleGraph.locus_stop)) ∧
    exampleGraph.add_frameshift 15 2500 1 =
      .error (.exc (boundsMsg 2500 exampleGraph.locus_stop)) :=
  (bounds_error_iff exampleGraph 15 2500 1 false 0).1 (by decide)

theorem dget_cons_self (k : Nat) (v : α) (d : List (Nat × α)) :
    dget ((k, v) :: d) k = some v := by
  simp [dget, List.find?]

theorem dget_cons_ne (k j : Nat) (v : α) (d : List (Nat × α)) (h : j ≠ k) :
    dget ((k, v) :: d) j = dget d j := by
  unfold dget
  rw [List.find?_cons_of_neg]
  simpa using fun hc => h hc.symm

theorem filter_map_eq_filterMap (l : List α) (p : α → Bool) (f : α → β) :
    (l.filter p).map f = l.filterMap (fun a => if p a then some (f a) else none) := by
  induction l with
  | nil => rfl
  | cons x xs ih =>
      by_cases hx : p x <;> simp [hx, ih]

/-- Looking every key of a duplicate-free association list back up and
post-processing the hit is the same as post-processing the entries
directly: this is what justifies reading the Python snapshot loop over
`get_edge_keys` as a filter over the pre-call edge set. -/
theorem filterMap_keys_eq (d : List (Nat × Edge)) (F : Nat → Edge → Option γ)
    (hnd : (dkeys d).Nodup) :
    (dkeys d).filterMap (fun ek =>
      match dget d ek with
      | some e => F ek e
      | none => none)
    = d.filterMap (fun p => F p.1 p.2) := by
  induction d with
  | nil => rfl
  | cons hd tl ih =>
      obtain ⟨k, v⟩ := hd
      have hnd1 : (dkeys ((k, v) :: tl)).Nodup := hnd
      rw [show dkeys ((k, v) :: tl) = k :: dkeys tl from rfl] at hnd1
      have hk : k ∉ dkeys tl := (List.nodup_cons.mp hnd1).1
      have hnd2 : (dkeys tl).Nodup := (List.nodup_cons.mp hnd1).2
      have htail : (dkeys tl).filterMap (fun ek =>
          match dget ((k, v) :: tl) ek with
          | some e => F ek e
          | none => none)
          = (dkeys tl).filterMap (fun ek =>
          match dget tl ek with
          | some e => F ek e
          | none => none) := by
        apply List.filterMap_congr
        intro ek hek
        rw [dget_cons_ne k ek v tl (fun hc => hk (hc ▸ hek))]
      calc (dkeys ((k, v) :: tl)).filterMap (fun ek =>
              match dget ((k, v) :: tl) ek with
              | some e => F ek e
              | none => none)
          = (k :: dkeys tl).filterMap (fun ek =>
              match dget ((k, v) :: tl) ek with
              | some e => F ek e
              | none => none) := rfl
        _ = ((k, v) :: tl).filterMap (fun p => F p.1 p.2) := by
              rw [List.filterMap_cons, List.filterMap_cons, dget_cons_self, htail,
                ih hnd2]

/-- The Boolean acceptance test of the source (`check_translation_upstream`
compared against `some false`) agrees with the specification's phrasing
(the translated count on the root path does not exceed the limit). -/
theorem orfSpecAccept_eq (h : RDG) (up : Nat) (r : Bool) (l : Nat) :
    orfSpecAccept h up r l =
      (r || (h.check_translation_upstream up l == some false)) := by
  unfold orfSpecAccept RDG.check_translation_upstream
  cases hp : h.root_to_node_of_acyclic_edge_path up with
  | none => simp [hp]
  | some pth =>
      simp only [hp, Option.map_some]
      congr 1
      by_cases hc : l < pth.countP (fun ek =>
          match dget h.edges ek with
          | some e => e.edge_type == "translated"
          | none => false)
      · simp [hc, Nat.not_le.mpr hc]
      · simp [hc, Nat.not_lt.mp hc]

theorem orfSpecStep_eq (s t : Int) (r : Bool) (l : Nat) :
    orfSpecStep s t r l = RDG.orfClashStep s t r l := by
  funext h c
  unfold orfSpecStep RDG.orfClashStep
  rw [orfSpecAccept_eq]

/-- C2.  `add_open_reading_frame` coincides with the specification text:
the spliced edges are exactly the non-translated edges of the pre-call
snapshot whose `[start, end)` span contains the start codon, each accepted
independently when reinitiation holds or the translated count on the
root-to-upstream-node edge path does not exceed the upstream limit, with
fresh start/stop nodes created at the given positions; clash detection is
the snapshot, never recomputed as edges are added. -/
theorem orf_matches_snapshot_spec :
    ∀ (g : RDG) (s t : Int) (r : Bool) (l : Nat),
      (dkeys g.edges).Nodup → t ≤ g.locus_stop →
      g.add_open_reading_frame s t r l = addOpenReadingFrameSpec g s t r l := by
  intro g s t r l hnd ht
  unfold RDG.add_open_reading_frame addOpenReadingFrameSpec
  rw [if_neg (not_lt.mpr ht), if_neg (not_lt.mpr ht)]
  dsimp only
  have hlist : (RDG.get_edge_keys g).filterMap (fun ek =>
      match dget g.edges ek with
      | some e =>
          if inIntRange s e.coordinates.1 e.coordinates.2
              && e.edge_type != "translated" then
            some (ek, e.from_node)
          else none
      | none => none)
      = (g.edges.filter (fun p =>
          p.2.edge_type != "translated" &&
            inIntRange s p.2.coordinates.1 p.2.coordinates.2)).map
        (fun p => (p.1, p.2.from_node)) := by
    rw [RDG.get_edge_keys, filterMap_keys_eq g.edges _ hnd,
      filter_map_eq_filterMap]
    apply List.filterMap_congr
    intro p _
    rw [Bool.and_comm]
  rw [hlist, orfSpecStep_eq]

/-- Witness for `orf_matches_snapshot_spec` on the canonical example with a
start codon at 200 that clashes with two untranslated edges. -/
theorem orf_matches_snapshot_spec_witness :
    exampleGraph.add_open_reading_frame 200 300 false 0 =
      addOpenReadingFrameSpec exampleGraph 200 300 false 0 :=
  orf_matches_snapshot_spec exampleGraph 200 300 false 0 (by decide) (by decide)

/-- Soundness of the node-path walk: any successful run of `nodePathAux`
extends the accumulator by a nonempty chain of first-input links whose last
element is a node with no input nodes (a root). -/
theorem nodePathAux_sound (g : RDG) :
    ∀ (fuel node : Nat) (acc res : List Nat),
      nodePathAux g fuel node acc = some res →
      ∃ ext root n, res = acc ++ ext ∧ ext ≠ [] ∧ ext.getLast? = some root ∧
        dget g.nodes root = some n ∧ n.input_nodes = [] ∧
        List.Chain (fun a b => firstInput g a = some b) node ext := by
  intro fuel
  induction fuel with
  | zero =>
      intro node acc res h
      cases h
  | succ fuel ih =>
      intro node acc res h
      rw [show nodePathAux g (fuel + 1) node acc =
        (match dget g.nodes node with
         | none => none
         | some n =>
            match n.input_nodes with
            | [] => none
            | in_node :: _ =>
                let path1 := acc ++ [in_node]
                match dget g.nodes in_node with
                | none => none
                | some m =>
                    if m.input_nodes.isEmpty then some path1
                    else nodePathAux g fuel in_node path1) from rfl] at h
      cases hn : dget g.nodes node with
      | none => rw [hn] at h; cases h
      | some n =>
          rw [hn] at h
          dsimp only at h
          cases hin : n.input_nodes with
          | nil => rw [hin] at h; cases h
          | cons in_node tl =>
              rw [hin] at h
              dsimp only at h
              cases hm : dget g.nodes in_node with
              | none => rw [hm] at h; cases h
              | some m =>
                  rw [hm] at h
                  dsimp only at h
                  by_cases hme : m.input_nodes.isEmpty
                  · rw [if_pos hme] at h
                    cases h
                    refine ⟨[in_node], in_node, m, rfl, by simp, by simp, hm,
                      List.isEmpty_iff.mp hme, ?_⟩
                    exact List.Chain.cons (by simp [firstInput, hn, hin]) List.Chain.nil
                  · rw [if_neg hme] at h
                    obtain ⟨ext, root, n2, hres, hne, hlast, hget, hnil, hchain⟩ :=
                      ih in_node (acc ++ [in_node]) res h
                    refine ⟨in_node :: ext, root, n2,
                      by rw [hres, List.append_assoc]; rfl, by simp, ?_, hget, hnil,
                      List.Chain.cons (by simp [firstInput, hn, hin]) hchain⟩
                    cases ext with
                    | nil => exact absurd rfl hne
                    | cons e es => rw [List.getLast?_cons_cons]; exact hlast

/-- C7.  Root-to-node path reconstruction follows only the first recorded
input link at every step (every returned path is a chain of
`input_nodes[0]` links), stops at a node with no input nodes, and returns
the path root-first (head is the root, last element is the queried node);
consequently `get_unique_paths` on the canonical one-translon example
returns exactly the two node paths `[1, 3, 2]` and `[1, 3, 4, 5]`,
duplicate-free. -/
theorem path_walks_first_input_links :
    (∀ (g : RDG) (nd : Nat) (p : List Nat),
        g.root_to_node_of_acyclic_node_path nd = some p →
        ∃ root rest n, p = root :: rest ∧
          dget g.nodes root = some n ∧ n.input_nodes = [] ∧
          p.getLast? = some nd ∧
          List.Chain' (fun a b => firstInput g b = some a) p) ∧
    exampleGraph.get_unique_paths = some [[1, 3, 2], [1, 3, 4, 5]] ∧
    [[1, 3, 2], [1, 3, 4, 5]].Nodup := by
  refine ⟨?_, by decide, by decide⟩
  intro g nd p hp
  unfold RDG.root_to_node_of_acyclic_node_path at hp
  cases haux : nodePathAux g (g.nodes.length + 1) nd [nd] with
  | none => rw [haux] at hp; cases hp
  | some res =>
      rw [haux] at hp
      rw [Option.map_some'] at hp
      have hp2 : p = res.reverse := (Option.some.inj hp).symm
      obtain ⟨ext, root, n, hres, hne, hlast, hget, hnil, hchain⟩ :=
        nodePathAux_sound g _ nd [nd] res haux
      have hres2 : res = nd :: ext := by rw [hres]; rfl
      have hreslast : res.getLast? = some root := by
        rw [hres2]
        cases ext with
        | nil => exact absurd rfl hne
        | cons e es => rw [List.getLast?_cons_cons]; exact hlast
      have hhead : p.head? = some root := by
        rw [hp2, List.head?_reverse]
        exact hreslast
      have hplast : p.getLast? = some nd := by
        rw [hp2, List.getLast?_reverse, hres2]
        rfl
      cases hP : p with
      | nil => rw [hP] at hhead; cases hhead
      | cons a rest =>
          rw [hP] at hhead
          have ha : a = root := by simpa using hhead
          refine ⟨root, rest, n, by rw [ha], hget, hnil, by rw [← hP]; exact hplast, ?_⟩
          rw [← hP, hp2]
          exact List.chain'_reverse.mpr (by rw [hres2]; exact hchain)

/-- Witness for `path_walks_first_input_links` at endpoint 2 of the
canonical example. -/
theorem path_walks_first_input_links_witness :
    ∃ root rest n, ([1, 3, 2] : List Nat) = root :: rest ∧
      dget exampleGraph.nodes root = some n ∧ n.input_nodes = [] ∧
      ([1, 3, 2] : List Nat).getLast? = some 2 ∧
      List.Chain' (fun a b => firstInput exampleGraph b = some a) [1, 3, 2] :=
  path_walks_first_input_links.1 exampleGraph 2 [1, 3, 2] (by decide)

/-- C8.  `newick` serializes recursively: an endpoint yields
"key:branchLength" with the branch length the coordinate delta to the
node's immediate ancestor (the second-to-last entry of its root-first
path); an internal node yields its children's strings joined by commas in
parentheses followed by its own key and, unless it is the root, its own
branch length; the root's string is terminated with a semicolon; and the
call fails whenever the graph does not have exactly one startpoint.  The
last conjunct computes the full serialization of the canonical example. -/
theorem newick_serialization :
    (∀ g : RDG, (g.get_startpoints).length ≠ 1 → ∃ e, g.newick = .error e) ∧
    (∀ (g : RDG) (fuel node root : Nat) (path : List Nat) (x ancestor : Nat)
        (rest : List Nat),
        (g.get_endpoints).contains node = true →
        g.root_to_node_of_acyclic_node_path node = some path →
        path.reverse = x :: ancestor :: rest →
        newickAux g (fuel + 1) node root =
          some (toString node ++ ":" ++
            toString (g.nodeStartD node - g.nodeStartD ancestor))) ∧
    (∀ (g : RDG) (fuel node root : Nat) (n : Node) (strs : List String)
        (path : List Nat) (x ancestor : Nat) (rest : List Nat),
        (g.get_endpoints).contains node = false →
        dget g.nodes node = some n →
        n.output_nodes.mapM (fun child => newickAux g fuel child root) = some strs →
        root ≠ node →
        g.root_to_node_of_acyclic_node_path node = some path →
        path.reverse = x :: ancestor :: rest →
        newickAux g (fuel + 1) node root =
          some ("(" ++ String.intercalate "," strs ++ ")" ++ toString node ++ ":" ++
            toString (g.nodeStartD node - g.nodeStartD ancestor))) ∧
    (∀ (g : RDG) (fuel root : Nat) (n : Node) (strs : List String),
        (g.get_endpoints).contains root = false →
        dget g.nodes root = some n →
        n.output_nodes.mapM (fun child => newickAux g fuel child root) = some strs →
        newickAux g (fuel + 1) root root =
          some ("(" ++ String.intercalate "," strs ++ ")" ++ toString root ++ ";")) ∧
    exampleGraph.newick = .ok "((2:990,(5:900)4:90)3:10)1;" := by
  refine ⟨?_, ?_, ?_, ?_, by decide⟩
  · intro g h
    unfold RDG.newick
    by_cases hgt : (g.get_startpoints).length > 1
    · rw [if_pos hgt]
      exact ⟨_, rfl⟩
    · rw [if_neg hgt]
      have h0 : (g.get_startpoints).length = 0 := by omega
      rw [List.length_eq_zero] at h0
      rw [h0]
      exact ⟨_, rfl⟩
  · intro g fuel node root path x ancestor rest hend hpath hrev
    rw [show newickAux g (fuel + 1) node root =
      (if (g.get_endpoints).contains node then
        match g.root_to_node_of_acyclic_node_path node with
        | none => none
        | some path =>
            match path.reverse with
            | _ :: ancestor :: _ =>
                some (toString node ++ ":" ++
                  toString (g.nodeStartD node - g.nodeStartD ancestor))
            | _ => none
       else
        let children := ((dget g.nodes node).map (fun n => n.output_nodes)).getD []
        match children.mapM (fun child => newickAux g fuel child root) with
        | none => none
        | some child_newick_strings =>
            let s := "(" ++ String.intercalate "," child_newick_strings ++ ")"
              ++ toString node
            let withBranch :=
              if root ≠ node then
                match g.root_to_node_of_acyclic_node_path node with
                | none => none
                | some path =>
                    match path.reverse with
                    | _ :: ancestor :: _ =>
                        some (s ++ ":" ++
                          toString (g.nodeStartD node - g.nodeStartD ancestor))
                    | _ => none
              else some s
            match withBranch with
            | none => none
            | some s1 => if node == root then some (s1 ++ ";") else some s1)
      from rfl]
    rw [if_pos hend, hpath]
    try dsimp only
    rw [hrev]
  · intro g fuel node root n strs path x ancestor rest hend hn hmap hne hpath hrev
    rw [show newickAux g (fuel + 1) node root =
      (if (g.get_endpoints).contains node then
        match g.root_to_node_of_acyclic_node_path node with
        | none => none
        | some path =>
            match path.reverse with
            | _ :: ancestor :: _ =>
                some (toString node ++ ":" ++
                  toString (g.nodeStartD node - g.nodeStartD ancestor))
            | _ => none
       else
        let children := ((dget g.nodes node).map (fun n => n.output_nodes)).getD []
        match children.mapM (fun child => newickAux g fuel child root) with
        | none => none
        | some child_newick_strings =>
            let s := "(" ++ String.intercalate "," child_newick_strings ++ ")"
              ++ toString node
            let withBranch :=
              if root ≠ node then
                match g.root_to_node_of_acyclic_node_path node with
                | none => none
                | some path =>
                    match path.reverse with
                    | _ :: ancestor :: _ =>
                        some (s ++ ":" ++
                          toString (g.nodeStartD node - g.nodeStartD ancestor))
                    | _ => none
              else some s
            match withBranch with
            | none => none
            | some s1 => if node == root then some (s1 ++ ";") else some s1)
      from rfl]
    rw [if_neg (by rw [hend]; exact Bool.false_ne_true)]
    try dsimp only
    rw [hn]
    simp only [Option.map_some', Option.getD_some]
    rw [hmap]
    try dsimp only
    rw [if_pos hne, hpath]
    try dsimp only
    rw [hrev]
    try dsimp only
    rw [if_neg (by simpa using fun hc => hne hc.symm)]
  · intro g fuel root n strs hend hn hmap
    rw [show newickAux g (fuel + 1) root root =
      (if (g.get_endpoints).contains root then
        match g.root_to_node_of_acyclic_node_path root with
        | none => none
        | some path =>
            match path.reverse with
            | _ :: ancestor :: _ =>
                some (toString root ++ ":" ++
                  toString (g.nodeStartD root - g.nodeStartD ancestor))
            | _ => none
       else
        let children := ((dget g.nodes root).map (fun n => n.output_nodes)).getD []
        match children.mapM (fun child => newickAux g fuel child root) with
        | none => none
        | some child_newick_strings =>
            let s := "(" ++ String.intercalate "," child_newick_strings ++ ")"
              ++ toString root
            let withBranch :=
              if root ≠ root then
                match g.root_to_node_of_acyclic_node_path root with
                | none => none
                | some path =>
                    match path.reverse with
                    | _ :: ancestor :: _ =>
                        some (s ++ ":" ++
                          toString (g.nodeStartD root - g.nodeStartD ancestor))
                    | _ => none
              else some s
            match withBranch with
            | none => none
            | some s1 => if root == root then some (s1 ++ ";") else some s1)
      from rfl]
    rw [if_neg (by rw [hend]; exact Bool.false_ne_true)]
    try dsimp only
    rw [hn]
    simp only [Option.map_some', Option.getD_some]
    rw [hmap]
    try dsimp only
    rw [if_neg (by simp)]
    try dsimp only
    rw [if_pos (by simp)]

/-- Witness for `newick_serialization`: the two-root load is rejected. -/
theorem newick_serialization_witness :
    ∃ e, twoRootGraph.newick = .error e :=
  newick_serialization.1 twoRootGraph (by decide)

theorem dget_nil (k : Nat) : dget ([] : List (Nat × α)) k = none := rfl

theorem dget_cons (hd : Nat × α) (tl : List (Nat × α)) (k : Nat) :
    dget (hd :: tl) k = if hd.1 == k then some hd.2 else dget tl k := by
  unfold dget
  cases hk : hd.1 == k
  · simp [List.find?, hk]
  · simp [List.find?, hk]

theorem mem_dkeys (d : List (Nat × α)) (k : Nat) :
    k ∈ dkeys d ↔ ∃ v, (k, v) ∈ d := by
  unfold dkeys
  rw [List.mem_map]
  constructor
  · rintro ⟨⟨a, b⟩, hp, hq⟩
    exact ⟨b, by rwa [← hq]⟩
  · rintro ⟨v, hv⟩
    exact ⟨(k, v), hv, rfl⟩

theorem dget_absent (d : List (Nat × α)) (k : Nat) (h : k ∉ dkeys d) :
    dget d k = none := by
  induction d with
  | nil => rfl
  | cons hd tl ih =>
      rw [dget_cons, if_neg, ih (fun hc => h (List.mem_cons_of_mem _ hc))]
      simp only [beq_iff_eq]
      intro hc
      refine h ?_
      show k ∈ hd.1 :: dkeys tl
      rw [← hc]
      exact List.mem_cons_self _ _

theorem dget_append_some (d e : List (Nat × α)) (k : Nat) (v : α)
    (h : dget d k = some v) : dget (d ++ e) k = some v := by
  induction d with
  | nil => cases h
  | cons hd tl ih =>
      rw [List.cons_append, dget_cons]
      rw [dget_cons] at h
      by_cases hk : hd.1 == k
      · rw [if_pos hk] at h ⊢
        exact h
      · rw [if_neg hk] at h ⊢
        exact ih h

theorem dget_append_absent (d e : List (Nat × α)) (k : Nat) (h : k ∉ dkeys d) :
    dget (d ++ e) k = dget e k := by
  induction d with
  | nil => rfl
  | cons hd tl ih =>
      rw [List.cons_append, dget_cons, if_neg, ih (fun hc => h (List.mem_cons_of_mem _ hc))]
      simp only [beq_iff_eq]
      intro hc
      refine h ?_
      show k ∈ hd.1 :: dkeys tl
      rw [← hc]
      exact List.mem_cons_self _ _

theorem dget_dmodify_self (d : List (Nat × α)) (k : Nat) (f : α → α) :
    dget (dmodify d k f) k = (dget d k).map f := by
  induction d with
  | nil => rfl
  | cons hd tl ih =>
      obtain ⟨a, b⟩ := hd
      unfold dmodify
      rw [List.map_cons]
      by_cases hk : (a, b).1 == k
      · rw [if_pos hk, dget_cons, dget_cons, if_pos hk]
        dsimp only
        rw [if_pos hk]
        rfl
      · rw [if_neg hk, dget_cons, dget_cons, if_neg hk, if_neg hk]
        exact ih

theorem dget_dmodify_ne (d : List (Nat × α)) (k j : Nat) (f : α → α) (h : j ≠ k) :
    dget (dmodify d k f) j = dget d j := by
  induction d with
  | nil => rfl
  | cons hd tl ih =>
      obtain ⟨a, b⟩ := hd
      unfold dmodify
      rw [List.map_cons]
      by_cases hk : (a, b).1 == k
      · rw [if_pos hk]
        dsimp only at hk ⊢
        rw [dget_cons, dget_cons]
        dsimp only
        have hak : a = k := by simpa using hk
        subst hak
        have hj : (a == j) = false := by
          simp only [beq_eq_false_iff_ne]
          exact fun hc => h hc.symm
        rw [hj]
        simp only [Bool.false_eq_true, if_false]
        exact ih
      · rw [if_neg hk, dget_cons, dget_cons]
        dsimp only
        by_cases hj : a == j
        · rw [if_pos hj, if_pos hj]
        · rw [if_neg hj, if_neg hj]
          exact ih

theorem dset_absent (d : List (Nat × α)) (k : Nat) (v : α) (h : k ∉ dkeys d) :
    dset d k v = d ++ [(k, v)] := by
  unfold dset
  have hnone : d.find? (fun p => p.1 == k) = none := by
    rw [List.find?_eq_none]
    rintro ⟨a, b⟩ hx
    simp only [beq_iff_eq]
    intro hc
    subst hc
    exact h ((mem_dkeys d a).mpr ⟨b, hx⟩)
  rw [hnone]
  rfl

theorem dkeys_append (d e : List (Nat × α)) : dkeys (d ++ e) = dkeys d ++ dkeys e := by
  simp [dkeys]

theorem dkeys_dmodify (d : List (Nat × α)) (k : Nat) (f : α → α) :
    dkeys (dmodify d k f) = dkeys d := by
  unfold dkeys dmodify
  rw [List.map_map]
  apply List.map_congr_left
  intro p _
  dsimp only [Function.comp]
  by_cases hk : p.1 == k
  · rw [if_pos hk]
  · rw [if_neg hk]

/-- A stored key is in the key list. -/
theorem mem_dkeys_of_dget (d : List (Nat × α)) (k : Nat) (v : α)
    (h : dget d k = some v) : k ∈ dkeys d := by
  by_contra hc
  rw [dget_absent d k hc] at h
  cases h

/-- Every live node key is strictly below the next allocated one. -/
theorem lt_new_node_key (g : RDG) (k : Nat) (h : k ∈ dkeys g.nodes) :
    k < g.get_new_node_key := by
  have h1 : g.nodes ≠ [] := by
    intro hc
    rw [hc] at h
    cases h
  rw [RDG.get_new_node_key, if_neg (by simpa [List.isEmpty_iff] using h1)]
  exact Nat.lt_succ_of_le (mem_le_listMax _ k h)

/-- Every live edge key is strictly below the next allocated one. -/
theorem lt_new_edge_key (g : RDG) (k : Nat) (h : k ∈ dkeys g.edges) :
    k < g.get_new_edge_key := by
  have h1 : g.edges ≠ [] := by
    intro hc
    rw [hc] at h
    cases h
  rw [RDG.get_new_edge_key, if_neg (by simpa [List.isEmpty_iff] using h1)]
  exact Nat.lt_succ_of_le (mem_le_listMax _ k h)

/-- The next node key is fresh. -/
theorem new_node_key_not_mem (g : RDG) : g.get_new_node_key ∉ dkeys g.nodes :=
  fun h => absurd (lt_new_node_key g _ h) (lt_irrefl _)

/-- The next edge key is fresh. -/
theorem new_edge_key_not_mem (g : RDG) : g.get_new_edge_key ∉ dkeys g.edges :=
  fun h => absurd (lt_new_edge_key g _ h) (lt_irrefl _)

/-- Component equations of the container primitives. -/
theorem add_node_nodes (g : RDG) (n : Node) :
    (g.add_node n).nodes = dset g.nodes n.key n := rfl

theorem add_node_edges (g : RDG) (n : Node) :
    (g.add_node n).edges = g.edges := rfl

theorem add_edge_edges (g : RDG) (e : Edge) (fk tk : Nat) :
    (g.add_edge e fk tk).edges = dset g.edges e.key e := rfl

theorem add_edge_nodes (g : RDG) (e : Edge) (fk tk : Nat) :
    (g.add_edge e fk tk).nodes =
      dmodify (dmodify g.nodes fk (fun n =>
        { n with output_edges := n.output_edges ++ [e.key],
                 output_nodes := n.output_nodes ++ [tk] })) tk (fun n =>
        { n with input_edges := n.input_edges ++ [e.key],
                 input_nodes := n.input_nodes ++ [fk] }) := rfl


/-- A key in the key list has a stored value. -/
theorem dget_of_mem (d : List (Nat × α)) (k : Nat) (h : k ∈ dkeys d) :
    ∃ v, dget d k = some v := by
  induction d with
  | nil => cases h
  | cons hd tl ih =>
      rw [dget_cons]
      by_cases hk : hd.1 == k
      · exact ⟨hd.2, by rw [if_pos hk]⟩
      · rw [if_neg hk]
        apply ih
        rcases List.mem_cons.mp h with h1 | h1
        · exact absurd (by simp [h1]) hk
        · exact h1

/-- `add_node` does not touch the edge mapping, so edge-key allocation is
unchanged. -/
theorem add_node_new_edge_key (g : RDG) (n : Node) :
    (g.add_node n).get_new_edge_key = g.get_new_edge_key := rfl

/-- What one `readthroughStep` does to the graph around a readthrough node
`rk` whose only outgoing edge is the terminal edge `t`: `rk` gains exactly
the fresh translated coding edge as a second outgoing edge (all its other
fields, its kind included, unchanged), edge `t` is preserved verbatim, the
coding edge runs from `rk` to the fresh stop node, and that stop node is a
"stop"-kind node at the requested position fed only by the coding edge. -/
theorem readthroughStep_components
    (g : RDG) (nsp : Int) (rk t : Nat) (n : Node)
    (hget : dget g.nodes rk = some n)
    (hOE : n.output_edges = [t])
    (htmem : t ∈ dkeys g.edges) :
    dget (RDG.readthroughStep nsp g rk).nodes rk =
      some { n with output_edges := [t, g.get_new_edge_key],
                    output_nodes := n.output_nodes ++ [g.get_new_node_key] } ∧
    dget (RDG.readthroughStep nsp g rk).edges t = dget g.edges t ∧
    dget (RDG.readthroughStep nsp g rk).edges g.get_new_edge_key =
      some { key := g.get_new_edge_key, edge_type := "translated",
             from_node := rk, to_node := g.get_new_node_key,
             coordinates := (n.node_start, nsp) } ∧
    (∃ sn, dget (RDG.readthroughStep nsp g rk).nodes g.get_new_node_key = some sn ∧
      sn.node_type = "stop" ∧ sn.node_start = nsp ∧
      sn.input_edges = [g.get_new_edge_key] ∧ sn.input_nodes = [rk]) := by
  unfold RDG.readthroughStep
  dsimp only
  set N := g.get_new_node_key with hN
  set E := g.get_new_edge_key with hE
  set ns : Node := { key := N, node_type := "stop", node_start := nsp } with hns
  set g1 : RDG := g.add_node ns with hg1
  have hNmem : N ∉ dkeys g.nodes := by rw [hN]; exact new_node_key_not_mem g
  have hEmem : E ∉ dkeys g.edges := by rw [hE]; exact new_edge_key_not_mem g
  have hnskey : ns.key = N := by rw [hns]
  have hg1nodes : g1.nodes = g.nodes ++ [(N, ns)] := by
    rw [hg1, add_node_nodes, hnskey, dset_absent _ _ _ hNmem]
  have hg1edges : g1.edges = g.edges := by rw [hg1, add_node_edges]
  have hg1E : g1.get_new_edge_key = E := by rw [hg1, add_node_new_edge_key, hE]
  rw [hg1E]
  have hg1S : g1.nodeStartD rk = n.node_start := by
    unfold RDG.nodeStartD
    rw [hg1nodes, dget_append_some _ _ _ _ hget]
    rfl
  rw [hg1S]
  set coding : Edge := { key := E, edge_type := "translated", from_node := rk, to_node := N, coordinates := (n.node_start, nsp) } with hcoding
  set g2 : RDG := g1.add_edge coding rk N with hg2
  have hcokey : coding.key = E := by rw [hcoding]
  have hg2nodes : g2.nodes = dmodify (dmodify g1.nodes rk (fun m =>
      { m with output_edges := m.output_edges ++ [coding.key],
               output_nodes := m.output_nodes ++ [N] })) N (fun m =>
      { m with input_edges := m.input_edges ++ [coding.key],
               input_nodes := m.input_nodes ++ [rk] }) := by
    rw [hg2, add_edge_nodes]
  have hg2edges : g2.edges = g.edges ++ [(E, coding)] := by
    rw [hg2, add_edge_edges, hcokey, hg1edges, dset_absent _ _ _ hEmem]
  have hkeys2 : dkeys g2.nodes = dkeys g.nodes ++ [N] := by
    rw [hg2nodes, dkeys_dmodify, dkeys_dmodify, hg1nodes, dkeys_append]
    rfl
  set N2 := g2.get_new_node_key with hN2
  set P2 := g2.nodeStartD ((Option.map (fun m => m.output_nodes.headD 0) (dget g2.nodes rk)).getD 0) with hP2
  set term : Node := { key := N2, node_type := "3_prime", node_start := P2 } with hterm
  set g3 : RDG := g2.add_node term with hg3
  have htermkey : term.key = N2 := by rw [hterm]
  have hN2mem : N2 ∉ dkeys g2.nodes := by rw [hN2]; exact new_node_key_not_mem g2
  have hg3nodes : g3.nodes = g2.nodes ++ [(N2, term)] := by
    rw [hg3, add_node_nodes, htermkey, dset_absent _ _ _ hN2mem]
  have hg3edges : g3.edges = g.edges ++ [(E, coding)] := by
    rw [hg3]
    exact hg2edges
  set E2 := g3.get_new_edge_key with hE2
  set P3 := g3.nodeStartD ((Option.map (fun m => m.output_nodes.headD 0) (dget g2.nodes rk)).getD 0) with hP3
  set tp_edge : Edge := { key := E2, edge_type := "untranslated", from_node := N, to_node := N2, coordinates := (nsp, P3) } with htp
  have htpkey : tp_edge.key = E2 := by rw [htp]
  -- key distinctness facts
  have hrkmem : rk ∈ dkeys g.nodes := mem_dkeys_of_dget _ _ _ hget
  have hrkN : rk ≠ N := Nat.ne_of_lt (by rw [hN]; exact lt_new_node_key g rk hrkmem)
  have hrkN2 : rk ≠ N2 := Nat.ne_of_lt (by
    rw [hN2]
    exact lt_new_node_key g2 rk (by rw [hkeys2]; exact List.mem_append_left _ hrkmem))
  have hNmem2 : N ∈ dkeys g2.nodes := by
    rw [hkeys2]
    exact List.mem_append_right _ (List.mem_cons_self _ _)
  have hNN2 : N ≠ N2 := Nat.ne_of_lt (by rw [hN2]; exact lt_new_node_key g2 N hNmem2)
  have hE2f : E2 ∉ dkeys (g.edges ++ [(E, coding)]) := by
    rw [← hg3edges, hE2]
    exact new_edge_key_not_mem g3
  have htmem3 : t ∈ dkeys g3.edges := by
    rw [hg3edges, dkeys_append]
    exact List.mem_append_left _ htmem
  have hEmem3 : E ∈ dkeys g3.edges := by
    rw [hg3edges, dkeys_append]
    exact List.mem_append_right _ (List.mem_cons_self _ _)
  have htE2 : t ≠ E2 := Nat.ne_of_lt (by rw [hE2]; exact lt_new_edge_key g3 t htmem3)
  have hEE2 : E ≠ E2 := Nat.ne_of_lt (by rw [hE2]; exact lt_new_edge_key g3 E hEmem3)
  -- the from-node of the splice after the loop body
  have hg2rk : dget g2.nodes rk =
      some { n with output_edges := [t, E], output_nodes := n.output_nodes ++ [N] } := by
    rw [hg2nodes, dget_dmodify_ne _ _ _ _ hrkN, dget_dmodify_self, hg1nodes,
      dget_append_some _ _ _ _ hget, Option.map_some', hcokey, hOE]
    rfl
  refine ⟨?_, ?_, ?_, ?_⟩
  · rw [add_edge_nodes, dget_dmodify_ne _ _ _ _ hrkN2, dget_dmodify_ne _ _ _ _ hrkN,
      hg3nodes]
    exact dget_append_some _ _ _ _ hg2rk
  · obtain ⟨v, hv⟩ := dget_of_mem g.edges t htmem
    rw [add_edge_edges, htpkey, hg3edges, dset_absent _ _ _ hE2f,
      dget_append_some _ _ _ _ (dget_append_some _ _ _ _ hv), hv]
  · rw [add_edge_edges, htpkey, hg3edges, dset_absent _ _ _ hE2f,
      dget_append_some _ _ _ _ (show dget (g.edges ++ [(E, coding)]) E = some coding by
        rw [dget_append_absent _ _ _ hEmem, dget_cons, if_pos (by simp)]),
      hcoding]
  · refine ⟨{ key := N, node_type := "stop", node_start := nsp, input_edges := [E], output_edges := [E2], input_nodes := [rk], output_nodes := [N2] }, ?_, rfl, rfl, rfl, rfl⟩
    rw [add_edge_nodes, dget_dmodify_ne _ _ _ _ hNN2, dget_dmodify_self, hg3nodes,
      dget_append_some _ _ _ _ (show dget g2.nodes N = some { ns with input_edges := [coding.key], input_nodes := [rk] } by
          rw [hg2nodes, dget_dmodify_self, dget_dmodify_ne _ _ _ _ (Ne.symm hrkN),
            hg1nodes, dget_append_absent _ _ _ hNmem, dget_cons, if_pos (by simp),
            Option.map_some']
          rw [hns]
          rfl),
      Option.map_some', htpkey, hcokey, hns]
    rfl

/-- C4, amended.  For every graph with a (single) stop node at
`readthrough_codon_position` whose only outgoing edge is its terminal edge,
and every `next_stop_codon_position ≤ locus_stop`, the readthrough splice
KEEPS that node's kind "stop" (the current code never relabels it to the
readthrough-stop kind) and gives it exactly two outgoing edges: the
preserved original untranslated terminal edge and a new translated edge to
a new stop node at `next_stop_codon_position`. -/
theorem readthrough_keeps_stop_kind :
    ∀ (g : RDG) (rp nsp : Int) (rk t : Nat) (n : Node),
      nsp ≤ g.locus_stop →
      g.get_key_from_position rp "stop" = .ok [rk] →
      dget g.nodes rk = some n →
      n.node_type = "stop" →
      n.output_edges = [t] →
      t ∈ dkeys g.edges →
      ∃ g', g.add_stop_codon_readthrough rp nsp = .ok g' ∧
        dget g'.nodes rk = some { n with output_edges := [t, g.get_new_edge_key],
                                          output_nodes := n.output_nodes ++ [g.get_new_node_key] } ∧
        dget g'.edges t = dget g.edges t ∧
        dget g'.edges g.get_new_edge_key = some { key := g.get_new_edge_key,
                                                  edge_type := "translated", from_node := rk,
                                                  to_node := g.get_new_node_key,
                                                  coordinates := (n.node_start, nsp) } ∧
        (∃ sn, dget g'.nodes g.get_new_node_key = some sn ∧
          sn.node_type = "stop" ∧ sn.node_start = nsp ∧
          sn.input_edges = [g.get_new_edge_key] ∧ sn.input_nodes = [rk]) := by
  intro g rp nsp rk t n hle hkey hget htype hOE htmem
  obtain ⟨h1, h2, h3, h4⟩ := readthroughStep_components g nsp rk t n hget hOE htmem
  refine ⟨RDG.readthroughStep nsp g rk, ?_, h1, h2, h3, h4⟩
  unfold RDG.add_stop_codon_readthrough
  rw [if_neg (not_lt.mpr hle), hkey]
  rfl

/-- Witness for `readthrough_keeps_stop_kind` on the canonical example. -/
theorem readthrough_keeps_stop_kind_witness :
    ∃ g', exampleGraph.add_stop_codon_readthrough 100 150 = .ok g' ∧
      dget g'.nodes 4 = some { key := 4, node_type := "stop", node_start := 100,
                               input_edges := [3],
                               output_edges := [4, exampleGraph.get_new_edge_key],
                               input_nodes := [3],
                               output_nodes := [5] ++ [exampleGraph.get_new_node_key] } ∧
      dget g'.edges 4 = dget exampleGraph.edges 4 ∧
      dget g'.edges exampleGraph.get_new_edge_key =
        some { key := exampleGraph.get_new_edge_key, edge_type := "translated",
               from_node := 4, to_node := exampleGraph.get_new_node_key,
               coordinates := (100, 150) } ∧
      (∃ sn, dget g'.nodes exampleGraph.get_new_node_key = some sn ∧
        sn.node_type = "stop" ∧ sn.node_start = 150 ∧
        sn.input_edges = [exampleGraph.get_new_edge_key] ∧
        sn.input_nodes = [4]) :=
  readthrough_keeps_stop_kind exampleGraph 100 150 4 4
    { key := 4, node_type := "stop", node_start := 100, input_edges := [3],
      output_edges := [4], input_nodes := [3], output_nodes := [5] }
    (by decide) (by decide) (by decide) rfl rfl (by decide)
